import Mathlib

/-!
Verification of the schema text transform of the prisma-editor repository.

This file gives a shallow embedding of the pure core found in the source
file that defines `generateModelCode`, `generateEnumCode`, `generateConfigCode`,
`generateSchemaCode`, `parseSchema` and `parseAttributeArguments`, together
with theorems settling the frozen claims about that core.

Modelling conventions:
- JavaScript strings are modelled by `String` / `List Char`; all scanning is
  done on `List Char`.
- The JavaScript regular expressions of the source are each replaced by a
  dedicated deterministic scanner implementing exactly that regex's matching
  semantics (the character classes involved are disjoint, so the regexes
  backtrack-free languages they match are reproduced by maximal-munch
  scanning; the one lazy group `\((.*?)\)` and the greedy group `\((.*)\)`
  are implemented as first- and last-closing-parenthesis capture).
- The nondeterministic fresh identity tokens the source builds from
  `Date.now()` and `Math.random()` are modelled by deterministic counters;
  no claim depends on the token values, and generation provably ignores them.
- `parseSchema`'s `try/catch` wrapper is modelled by an `Option` result; no
  operation in the body can throw, so the embedding always returns `some`.
-/

set_option maxRecDepth 100000

namespace Prisma

/-! ## Character classes and small string utilities -/

/-- JavaScript `\w`, i.e. `[A-Za-z0-9_]`. -/
def isWordChar (c : Char) : Bool :=
  (('a' ≤ c && c ≤ 'z') || ('A' ≤ c && c ≤ 'Z') || ('0' ≤ c && c ≤ '9') || c = '_')

/-- The ASCII part of JavaScript `\s` (and of `String.prototype.trim`). -/
def isSpaceChar (c : Char) : Bool :=
  (c = ' ' || c = '\t' || c = '\n' || c = '\r' || c = '\x0b' || c = '\x0c')

/-- JavaScript `String.prototype.trim` on a character list. -/
def trimChars (l : List Char) : List Char :=
  ((l.dropWhile isSpaceChar).reverse.dropWhile isSpaceChar).reverse

/-- JavaScript `Array.prototype.join(sep)`. -/
def joinSep (sep : String) : List String → String
  | [] => ""
  | [x] => x
  | x :: y :: xs => x ++ sep ++ joinSep sep (y :: xs)

/-- Consume an exact literal prefix, returning the remainder. -/
def dropLiteral : List Char → List Char → Option (List Char)
  | [], s => some s
  | _ :: _, [] => none
  | k :: ks, c :: cs => if k = c then dropLiteral ks cs else none

/-- JavaScript `String.prototype.split(',')` on a character list:
the result always has at least one (possibly empty) piece. -/
def splitOnComma (l : List Char) : List (List Char) :=
  l.foldr
    (fun c acc =>
      match acc with
      | p :: ps => if c = ',' then [] :: p :: ps else (c :: p) :: ps
      | [] => [[c]])
    [[]]

/-! ## Data model (the `Schema` types of the source) -/

structure AttributeArgument where
  name : String
  value : String
  isExpression : Bool
deriving DecidableEq, Repr

structure Attribute where
  name : String
  arguments : List AttributeArgument
deriving DecidableEq, Repr

structure ModelAttributeArgument where
  name : String
  value : String
deriving DecidableEq, Repr

structure ModelAttribute where
  type : String
  arguments : List ModelAttributeArgument
deriving DecidableEq, Repr

structure Field where
  id : String
  name : String
  type : String
  isRequired : Bool
  isList : Bool
  attributes : List Attribute
deriving DecidableEq, Repr

structure Model where
  id : String
  name : String
  fields : List Field
  attributes : List ModelAttribute
deriving DecidableEq, Repr

structure Enum where
  id : String
  name : String
  values : List String
deriving DecidableEq, Repr

structure Datasource where
  provider : String
  url : String
deriving DecidableEq, Repr

structure Generator where
  provider : String
  output : Option String
  previewFeatures : List String
  binaryTargets : List String
deriving DecidableEq, Repr

structure Schema where
  models : List Model
  enums : List Enum
  datasource : Datasource
  generator : Generator
deriving DecidableEq, Repr

/-! ## The argument scanner (`parseAttributeArguments` and its `processArg`) -/

/-- `value.startsWith(q)` of the source, on a character list. -/
def startsWithChar (c : Char) (l : List Char) : Bool := l.head? = some c

/-- `value.endsWith(q)` of the source, on a character list. -/
def endsWithChar (c : Char) (l : List Char) : Bool := l.getLast? = some c

/-- The quote test used by `processArg`:
`(v.startsWith('"') && v.endsWith('"')) || (v.startsWith("'") && v.endsWith("'"))`. -/
def isWrappedChars (l : List Char) : Bool :=
  (startsWithChar '"' l && endsWithChar '"' l) ||
    (startsWithChar '\'' l && endsWithChar '\'' l)

/-- The `processArg` closure of `parseAttributeArguments`: split an argument
chunk at the first `:` (JavaScript `indexOf`), or store it as a positional
argument named `"value"`.  For a named argument the expression test is applied
to the trimmed value; for a positional one it is applied to the raw chunk. -/
def processArg (arg : List Char) : AttributeArgument :=
  let pre := arg.takeWhile (fun c => ¬ (c = ':'))
  if pre.length = arg.length then
    { name := "value"
      value := (trimChars arg).asString
      isExpression := ¬ (isWrappedChars arg) }
  else
    let value := trimChars (arg.drop (pre.length + 1))
    { name := (trimChars pre).asString
      value := value.asString
      isExpression := ¬ (isWrappedChars value) }

/-- The character loop of `parseAttributeArguments`.  State: previous input
character (for the escape test `argsStr[i-1] !== '\\'`), in-string flag and
current quote, the (dead, but faithfully carried) `currentArgName`, the
accumulation buffer, the bracket depth, and the output accumulator. -/
def scanArgs : List Char → Option Char → Bool → Char → List Char → List Char →
    Int → List AttributeArgument → List AttributeArgument
  | [], _, _, _, _, buffer, _, acc =>
      if trimChars buffer = [] then acc else acc ++ [processArg buffer]
  | c :: rest, prev, isInString, quote, curName, buffer, depth, acc =>
      if isInString then
        if c = quote ∧ prev ≠ some '\\' then
          scanArgs rest (some c) false quote curName (buffer ++ [c]) depth acc
        else
          scanArgs rest (some c) true quote curName (buffer ++ [c]) depth acc
      else if c = '"' ∨ c = '\'' then
        scanArgs rest (some c) true c curName (buffer ++ [c]) depth acc
      else if c = '[' ∨ c = '{' ∨ c = '(' then
        scanArgs rest (some c) isInString quote curName (buffer ++ [c]) (depth + 1) acc
      else if c = ']' ∨ c = '}' ∨ c = ')' then
        scanArgs rest (some c) isInString quote curName (buffer ++ [c]) (depth - 1) acc
      else if c = ',' ∧ depth = 0 then
        scanArgs rest (some c) isInString quote curName [] depth (acc ++ [processArg buffer])
      else if c = ':' ∧ curName = [] then
        scanArgs rest (some c) isInString quote (trimChars buffer) (buffer ++ [c]) depth acc
      else
        scanArgs rest (some c) isInString quote curName (buffer ++ [c]) depth acc

/-- `parseAttributeArguments` on a character list. -/
def parseAttributeArgumentsL (l : List Char) : List AttributeArgument :=
  if trimChars l = [] then [] else scanArgs l none false ' ' [] [] 0 []

/-- The source's `parseAttributeArguments`. -/
def parseAttributeArguments (s : String) : List AttributeArgument :=
  parseAttributeArgumentsL s.data

/-! ## The code generator -/

/-- The per-argument formatting of `generateModelCode`: an expression value is
emitted raw; a literal value is emitted as-is when it already starts with a
quote, and wrapped in double quotes otherwise. -/
def formatArgValue (arg : AttributeArgument) : String :=
  if arg.isExpression then arg.value
  else if startsWithChar '"' arg.value.data ∨ startsWithChar '\'' arg.value.data then
    arg.value
  else "\"" ++ arg.value ++ "\""

/-- The attribute renderer of `generateModelCode`, with its three special
cases: `default` (append a closing parenthesis when the argument list contains
an unmatched opening one), `db` (namespaced rendering, empty when there are no
arguments) and `relation` (always named `name: value` pairs). -/
def fieldAttributeCode (attr : Attribute) : String :=
  let args := joinSep ", " (attr.arguments.map formatArgValue)
  if attr.name = "default" ∧ args.data.contains '(' ∧ ¬ (endsWithChar ')' args.data) then
    "@" ++ attr.name ++ "(" ++ args ++ "))"
  else if attr.name = "db" then
    if args ≠ "" then "@" ++ attr.name ++ "." ++ args else ""
  else if attr.name = "relation" then
    "@" ++ attr.name ++ "(" ++
      joinSep ", " (attr.arguments.map (fun arg => arg.name ++ ": " ++ arg.value)) ++ ")"
  else
    "@" ++ attr.name ++ (if args ≠ "" then "(" ++ args ++ ")" else "")

/-- One field line of `generateModelCode`. -/
def fieldLineCode (field : Field) : String :=
  let type := field.type ++ (if field.isList then "[]" else "") ++
    (if ¬ field.isRequired then "?" else "")
  let attributes := joinSep " " (field.attributes.map fieldAttributeCode)
  "  " ++ field.name ++ " " ++ type ++
    (if attributes ≠ "" then " " ++ attributes else "")

/-- One model-level attribute entry of `generateModelCode` (each entry carries
its own leading newline and indentation). -/
def modelAttributeEntryCode (attr : ModelAttribute) : String :=
  let args := joinSep ", " (attr.arguments.map (fun arg => arg.value))
  "\n  @@" ++ attr.type ++ (if args ≠ "" then "(" ++ args ++ ")" else "")

/-- The source's `generateModelCode`. -/
def generateModelCode (model : Model) : String :=
  let fieldLines := model.fields.map fieldLineCode
  let modelAttributes := joinSep "\n" (model.attributes.map modelAttributeEntryCode)
  let modelBody :=
    joinSep "\n" (fieldLines ++ (if modelAttributes ≠ "" then [modelAttributes] else []))
  "model " ++ model.name ++ " \x7b\n" ++ modelBody ++ "\n\x7d"

/-- The source's `generateEnumCode`. -/
def generateEnumCode (enumData : Enum) : String :=
  "enum " ++ enumData.name ++ " \x7b\n" ++
    joinSep "\n" (enumData.values.map (fun value => "  " ++ value)) ++ "\n\x7d"

/-- The datasource block text (identical in `generateConfigCode` and
`generateSchemaCode`): the block name is always emitted as `db`. -/
def datasourceCode (datasource : Datasource) : String :=
  "datasource db \x7b\n  provider = \"" ++ datasource.provider ++
    "\"\n  url      = " ++ datasource.url ++ "\n\x7d"

/-- The generator block text (identical in `generateConfigCode` and
`generateSchemaCode`): the block name is always emitted as `client`;
`output`, `previewFeatures` and `binaryTargets` lines are omitted when the
value is absent/empty (JavaScript truthiness). -/
def generatorCode (generator : Generator) : String :=
  let previewFeatures :=
    if generator.previewFeatures ≠ [] then
      "\n  previewFeatures = [" ++
        joinSep ", " (generator.previewFeatures.map (fun f => "\"" ++ f ++ "\"")) ++ "]"
    else ""
  let binaryTargets :=
    if generator.binaryTargets ≠ [] then
      "\n  binaryTargets = [" ++
        joinSep ", " (generator.binaryTargets.map (fun t => "\"" ++ t ++ "\"")) ++ "]"
    else ""
  let output :=
    match generator.output with
    | some o => if o = "" then "" else "\n  output = \"" ++ o ++ "\""
    | none => ""
  "generator client \x7b\n  provider = \"" ++ generator.provider ++ "\"" ++
    output ++ previewFeatures ++ binaryTargets ++ "\n\x7d"

/-- The source's `generateConfigCode`. -/
def generateConfigCode (datasource : Datasource) (generator : Generator) : String :=
  datasourceCode datasource ++ "\n\n" ++ generatorCode generator

/-- The identity-token erasure `generateSchemaCode` performs first
(`id: undefined` modelled as the empty token). -/
def sanitizeField (field : Field) : Field := { field with id := "" }

def sanitizeModel (model : Model) : Model :=
  { model with id := "", fields := model.fields.map sanitizeField }

def sanitizeEnum (enumData : Enum) : Enum := { enumData with id := "" }

def sanitizeSchema (schema : Schema) : Schema :=
  { schema with
    models := schema.models.map sanitizeModel
    enums := schema.enums.map sanitizeEnum }

/-- Body of `generateSchemaCode` after the sanitizing step: the four sections
in fixed order, empty ones removed (`filter(Boolean)`), joined by blank
lines. -/
def generateSchemaCodeCore (schema : Schema) : String :=
  let modelsCode := joinSep "\n\n" (schema.models.map generateModelCode)
  let enumsCode := joinSep "\n\n" (schema.enums.map generateEnumCode)
  joinSep "\n\n"
    (([datasourceCode schema.datasource, generatorCode schema.generator,
       modelsCode, enumsCode]).filter (fun sec => ¬ (sec = "")))

/-- The source's `generateSchemaCode`. -/
def generateSchemaCode (schema : Schema) : String :=
  generateSchemaCodeCore (sanitizeSchema schema)

/-! ## The parser (`parseSchema` and its helper regexes) -/

/-- Comment stripping, `schemaContent.replace(/\/\/.*$/gm, '')`: on each line,
delete everything from the first `//` to the end of the line. -/
def stripCommentsAux : Nat → List Char → List Char
  | 0, _ => []
  | _ + 1, [] => []
  | fuel + 1, c :: rest =>
    if c = '/' ∧ rest.head? = some '/' then
      stripCommentsAux fuel (rest.dropWhile (fun d => d != '\n'))
    else
      c :: stripCommentsAux fuel rest

def stripComments (l : List Char) : List Char :=
  stripCommentsAux l.length l

/-- One attempted match, at the current position, of a block regex
`kind\s+(\w+)\s*{([^}]*)}` (the shape shared by the `datasource`, `generator`,
`model` and `enum` regexes of `parseSchema`; `[^}]*` greedily followed by `}`
captures up to the first closing brace).  Returns the block name, the raw
body, and the remainder of the input after the match. -/
def matchBlockAt (kw : List Char) (s : List Char) :
    Option (List Char × List Char × List Char) :=
  match dropLiteral kw s with
  | none => none
  | some s1 =>
    let sp := s1.takeWhile isSpaceChar
    let s2 := s1.dropWhile isSpaceChar
    if sp = [] then none
    else
      let w := s2.takeWhile isWordChar
      let s3 := s2.dropWhile isWordChar
      if w = [] then none
      else
        let s4 := s3.dropWhile isSpaceChar
        if s4.head? = some '\x7b' then
          let s5 := s4.tail
          let b := s5.takeWhile (fun c => c != '\x7d')
          let s6 := s5.dropWhile (fun c => c != '\x7d')
          if s6.head? = some '\x7d' then some (w, b, s6.tail) else none
        else none

/-- The global scan of a block regex: try a match at every position, emitting
each match and resuming after it (JavaScript `lastIndex` behaviour). -/
def findBlocksAux (kw : List Char) : Nat → List Char → List (List Char × List Char)
  | 0, _ => []
  | _ + 1, [] => []
  | fuel + 1, c :: rest =>
    match matchBlockAt kw (c :: rest) with
    | some (nm, bd, r) => (nm, bd) :: findBlocksAux kw fuel r
    | none => findBlocksAux kw fuel rest

/-- All matches of the block regex for keyword `kw`, in source order. -/
def findBlocks (kw : List Char) (s : List Char) : List (List Char × List Char) :=
  findBlocksAux kw s.length s

/-- Leftmost-match search: try an anchored matcher at every position
(`RegExp.prototype.exec` without the `g` flag). -/
def findFirstAux (f : List Char → Option α) : Nat → List Char → Option α
  | 0, _ => none
  | _ + 1, [] => f []
  | fuel + 1, c :: rest =>
    match f (c :: rest) with
    | some r => some r
    | none => findFirstAux f fuel rest

def findFirst (f : List Char → Option α) (s : List Char) : Option α :=
  findFirstAux f (s.length + 1) s

/-- Anchored match of `key\s*=\s*["']([^"']+)["']` (the `provider` and
`output` line regexes): either quote may open and either may close. -/
def matchQuotedKeyAt (key : List Char) (s : List Char) : Option (List Char) :=
  match dropLiteral key s with
  | none => none
  | some s1 =>
    match s1.dropWhile isSpaceChar with
    | '=' :: s3 =>
      match s3.dropWhile isSpaceChar with
      | q :: s5 =>
        if q = '"' ∨ q = '\'' then
          let inner := s5.takeWhile (fun c => ¬ (c = '"' ∨ c = '\''))
          let s6 := s5.dropWhile (fun c => ¬ (c = '"' ∨ c = '\''))
          if inner = [] then none
          else match s6 with
            | [] => none
            | _ :: _ => some inner
        else none
      | [] => none
    | _ => none

/-- Anchored match of `url\s*=\s*(.*)` (`.` does not cross a newline). -/
def matchUrlAt (s : List Char) : Option (List Char) :=
  match dropLiteral ("url".data) s with
  | none => none
  | some s1 =>
    match s1.dropWhile isSpaceChar with
    | '=' :: s3 => some ((s3.dropWhile isSpaceChar).takeWhile (fun c => c != '\n'))
    | _ => none

/-- Anchored match of `key\s*=\s*\[(.*)\]`: the greedy `(.*)` captures up to
the last `]` on the line. -/
def matchBracketKeyAt (key : List Char) (s : List Char) : Option (List Char) :=
  match dropLiteral key s with
  | none => none
  | some s1 =>
    match s1.dropWhile isSpaceChar with
    | '=' :: s3 =>
      match s3.dropWhile isSpaceChar with
      | '[' :: s5 =>
        let lineRest := s5.takeWhile (fun c => c != '\n')
        match lineRest.reverse.dropWhile (fun c => c != ']') with
        | ']' :: revCap => some revCap.reverse
        | _ => none
      | _ => none
    | _ => none

/-- The datasource-body parse of `parseSchema`: the body is used only when
both the provider and the url lines match. -/
def parseDatasourceBody (b : List Char) : Option Datasource :=
  match findFirst (matchQuotedKeyAt ("provider".data)) b, findFirst matchUrlAt b with
  | some p, some u => some { provider := p.asString, url := (trimChars u).asString }
  | _, _ => none

/-- `.trim().replace(/["']/g, '')` applied to one piece of a bracketed list. -/
def cleanListPiece (piece : List Char) : String :=
  ((trimChars piece).filter (fun c => ¬ (c = '"' ∨ c = '\''))).asString

/-- The generator-body parse of `parseSchema`: the body is used only when the
provider line matches; `output` is optional, `previewFeatures` defaults to the
empty list and `binaryTargets` to `["native"]`. -/
def parseGeneratorBody (b : List Char) : Option Generator :=
  match findFirst (matchQuotedKeyAt ("provider".data)) b with
  | none => none
  | some p =>
    some
      { provider := p.asString
        output := (findFirst (matchQuotedKeyAt ("output".data)) b).map List.asString
        previewFeatures :=
          match findFirst (matchBracketKeyAt ("previewFeatures".data)) b with
          | some cap => (splitOnComma cap).map cleanListPiece
          | none => []
        binaryTargets :=
          match findFirst (matchBracketKeyAt ("binaryTargets".data)) b with
          | some cap => (splitOnComma cap).map cleanListPiece
          | none => ["native"] }

/-- The global scan of the field-attribute regex `@(\w+)(?:\((.*?)\))?`: the
lazy group captures up to the first closing parenthesis; when `(` is present
but never closed the optional group fails and the match is just `@name`. -/
def findAttrs : Nat → List Char → List (List Char × List Char)
  | 0, _ => []
  | _ + 1, [] => []
  | fuel + 1, c :: rest =>
    if c = '@' then
      let w := rest.takeWhile isWordChar
      if w = [] then findAttrs fuel rest
      else
        match rest.dropWhile isWordChar with
        | '(' :: r2 =>
          let inner := r2.takeWhile (fun d => d != ')')
          match r2.dropWhile (fun d => d != ')') with
          | ')' :: r3 => (w, inner) :: findAttrs fuel r3
          | _ => (w, []) :: findAttrs fuel (rest.dropWhile isWordChar)
        | after => (w, []) :: findAttrs fuel after
    else findAttrs fuel rest

/-- Anchored attempt of the field-line regex
`(\w+)\s+(\w+)(\[\])?(\?)?(?:\s+(.*))?`: name, type, optional `[]` and `?`
markers, and the trailing attribute text (after at least one space). -/
def matchFieldAt (s : List Char) :
    Option (List Char × List Char × Bool × Bool × List Char) :=
  let w1 := s.takeWhile isWordChar
  if w1 = [] then none
  else
    let s1 := s.dropWhile isWordChar
    let sp := s1.takeWhile isSpaceChar
    if sp = [] then none
    else
      let s2 := s1.dropWhile isSpaceChar
      let w2 := s2.takeWhile isWordChar
      if w2 = [] then none
      else
        let s3 := s2.dropWhile isWordChar
        let listThen :=
          match s3 with
          | '[' :: ']' :: r => (true, r)
          | _ => (false, s3)
        let optThen :=
          match listThen.2 with
          | '?' :: r => (true, r)
          | _ => (false, listThen.2)
        let attrsStr :=
          match optThen.2 with
          | c :: _ => if isSpaceChar c then optThen.2.dropWhile isSpaceChar else []
          | [] => []
        some (w1, w2, listThen.1, ¬ optThen.1, attrsStr)

/-- Leftmost match of the field-line regex (`exec` on the trimmed line). -/
def findFieldMatch (l : List Char) :
    Option (List Char × List Char × Bool × Bool × List Char) :=
  findFirst matchFieldAt l

/-- Leftmost match of the model-attribute regex `@@(\w+)(?:\((.*)\))?`: the
greedy group captures up to the last closing parenthesis on the line; when
`(` is present but never closed the optional group fails. -/
def findModelAttr : Nat → List Char → Option (List Char × List Char)
  | 0, _ => none
  | _ + 1, [] => none
  | fuel + 1, c :: rest =>
    (if c = '@' ∧ rest.head? = some '@' then
      let r1 := rest.tail
      let w := r1.takeWhile isWordChar
      if w = [] then findModelAttr fuel rest
      else
        match r1.dropWhile isWordChar with
        | '(' :: r2 =>
          match r2.reverse.dropWhile (fun d => d != ')') with
          | ')' :: revCap => some (w, revCap.reverse)
          | _ => some (w, [])
        | _ => some (w, [])
    else findModelAttr fuel rest)

/-- One parsed field line of a model body (`mi`/`fi` index the deterministic
stand-ins for the source's random fresh field identities). -/
def buildField (mi fi : Nat) (m : List Char × List Char × Bool × Bool × List Char) :
    Field :=
  { id := "field-" ++ toString mi ++ "-" ++ toString fi
    name := m.1.asString
    type := m.2.1.asString
    isRequired := m.2.2.2.1
    isList := m.2.2.1
    attributes :=
      (findAttrs (m.2.2.2.2.length + 1) m.2.2.2.2).map
        (fun a => { name := a.1.asString, arguments := parseAttributeArgumentsL a.2 }) }

/-- The line loop of the model-body parse: blank lines are skipped, `@@` lines
become model attributes (dropping the expression flags of their arguments),
all other lines are field candidates and are silently dropped when the field
regex does not match. -/
def parseModelLines (mi : Nat) (lines : List (List Char)) :
    List Field × List ModelAttribute :=
  lines.foldl
    (fun acc line =>
      let t := trimChars line
      if t = [] then acc
      else if t.take 2 = ['@', '@'] then
        match findModelAttr (t.length + 1) t with
        | some (ty, argsStr) =>
          (acc.1,
            acc.2 ++
              [{ type := ty.asString
                 arguments :=
                   (parseAttributeArgumentsL argsStr).map
                     (fun a => { name := a.name, value := a.value }) }])
        | none => acc
      else if t.take 2 = ['/', '/'] then acc
      else
        match findFieldMatch t with
        | some m => (acc.1 ++ [buildField mi acc.1.length m], acc.2)
        | none => acc)
    ([], [])

/-- One parsed model block (`mi` indexes the deterministic stand-in for the
source's random fresh model identity). -/
def buildModel (mi : Nat) (nm bd : List Char) : Model :=
  let parsed := parseModelLines mi (bd.splitOn '\n')
  { id := "model_" ++ toString mi
    name := nm.asString
    fields := parsed.1
    attributes := parsed.2 }

/-- One parsed enum block: every non-blank line of the body, trimmed. -/
def buildEnum (ei : Nat) (nm bd : List Char) : Enum :=
  { id := "enum_" ++ toString ei
    name := nm.asString
    values :=
      ((bd.splitOn '\n').map trimChars).filterMap
        (fun t =>
          if t = [] ∨ t.take 2 = ['/', '/'] then none else some t.asString) }

/-- The datasource/generator accumulation of `parseSchema`: each matching
block overwrites the previous value, so the last successfully parsed block
wins; blocks whose body does not yield the required keys are skipped. -/
def lastConfig (f : List Char → Option α) (d : α) (bodies : List (List Char)) : α :=
  bodies.foldl (fun acc b => (f b).getD acc) d

/-- The defaults `parseSchema` installs before scanning. -/
def defaultDatasource : Datasource :=
  { provider := "postgresql", url := "env(\"DATABASE_URL\")" }

def defaultGenerator : Generator :=
  { provider := "prisma-client-js", output := none, previewFeatures := [],
    binaryTargets := ["native"] }

/-- The source's `parseSchema`.  The `try/catch` wrapper is modelled by the
`Option` result; no operation in the body can throw, so the result is always
`some`. -/
def parseSchema (schemaContent : String) : Option Schema :=
  let t := stripComments schemaContent.data
  some
    { models := (findBlocks ("model".data) t).enum.map (fun p => buildModel p.1 p.2.1 p.2.2)
      enums := (findBlocks ("enum".data) t).enum.map (fun p => buildEnum p.1 p.2.1 p.2.2)
      datasource :=
        lastConfig parseDatasourceBody defaultDatasource
          ((findBlocks ("datasource".data) t).map (fun p => p.2))
      generator :=
        lastConfig parseGeneratorBody defaultGenerator
          ((findBlocks ("generator".data) t).map (fun p => p.2)) }

/-! ## Claim C3: the argument-scanner nesting example -/

/-- C3: scanning `a: 1, b: [x, y], c: "a,b"` yields exactly the three
arguments `(a, 1, expression)`, `(b, [x, y], expression)` and
`(c, "a,b" with quotes, literal)`; the comma inside the brackets and the one
inside the quoted string do not split the argument list. -/
theorem c3_argument_scanner_nesting :
    parseAttributeArguments "a: 1, b: [x, y], c: \"a,b\"" =
      [{ name := "a", value := "1", isExpression := true },
       { name := "b", value := "[x, y]", isExpression := true },
       { name := "c", value := "\"a,b\"", isExpression := false }] := by
  decide

/-! ## Claim C1: the literal `model User` round trip -/

/-- The literal input text of claim C1. -/
def c1text : String :=
  "model User \x7b\n  id String @id @default(cuid())\n  name String\n\x7d"

/-- The `id` field actually produced by parsing `c1text`: the lazy argument
group of the field-attribute regex stops at the first closing parenthesis, so
the `default` argument's stored value is `cuid(`, not `cuid()`. -/
def c1Field1 : Field :=
  { id := "field-0-0", name := "id", type := "String", isRequired := true,
    isList := false,
    attributes :=
      [{ name := "id", arguments := [] },
       { name := "default",
         arguments := [{ name := "value", value := "cuid(", isExpression := true }] }] }

def c1Field2 : Field :=
  { id := "field-0-1", name := "name", type := "String", isRequired := true,
    isList := false, attributes := [] }

def c1Model : Model :=
  { id := "model_0", name := "User", fields := [c1Field1, c1Field2],
    attributes := [] }

def c1Parsed : Schema :=
  { models := [c1Model], enums := [], datasource := defaultDatasource,
    generator := defaultGenerator }

/-- C1, counterexample: parsing `c1text` does yield one `User` model with the
two expected fields, but the `default` attribute's single argument has value
`cuid(` (the lazy regex group drops the closing parenthesis), not `cuid()` as
the claim states. -/
theorem c1_counterexample :
    parseSchema c1text = some c1Parsed ∧
    c1Field1.attributes =
      [{ name := "id", arguments := [] },
       { name := "default",
         arguments := [{ name := "value", value := "cuid(", isExpression := true }] }] ∧
    ("cuid(" : String) ≠ "cuid()" := by
  refine ⟨by decide, by decide, by decide⟩

/-- C1, amended: parsing `c1text` yields exactly one Model named `User` with
field `id` (String, required, attributes `[id, default]`, the `default`
argument being named `value` with value `cuid(` — the first closing
parenthesis ends the lazy capture — and `isExpression` true) and field `name`
(String, required, no attributes); and `generateModelCode` on that model
reproduces the input text exactly (the `default` special case re-appends the
dropped parenthesis). -/
theorem c1_parse_and_regenerate :
    parseSchema c1text = some c1Parsed ∧
    generateModelCode c1Model = c1text := by
  refine ⟨by decide, by decide⟩

/-! ## Claim C2: idempotence of generation after one round trip -/

/-- The natural empty document: no models, no enums, default datasource, and
a generator with no binary targets. -/
def c2EmptyDoc : Schema :=
  { models := [], enums := [],
    datasource := { provider := "postgresql", url := "env(\"DATABASE_URL\")" },
    generator := { provider := "prisma-client-js", output := none,
                   previewFeatures := [], binaryTargets := [] } }

/-- What parsing `generateSchemaCode c2EmptyDoc` produces: `binaryTargets`
comes back as `["native"]` (the parser's default when the line is absent). -/
def c2EmptyParsed : Schema :=
  { models := [], enums := [],
    datasource := { provider := "postgresql", url := "env(\"DATABASE_URL\")" },
    generator := { provider := "prisma-client-js", output := none,
                   previewFeatures := [], binaryTargets := ["native"] } }

/-- C2, counterexample: for the document `c2EmptyDoc` (empty `binaryTargets`)
the generated text omits the `binaryTargets` line, parsing restores the
default `["native"]`, and regeneration then emits that line — so
`generate (parse (generate D)) ≠ generate D`. -/
theorem c2_counterexample :
    parseSchema (generateSchemaCode c2EmptyDoc) = some c2EmptyParsed ∧
    generateSchemaCode c2EmptyParsed ≠ generateSchemaCode c2EmptyDoc := by
  refine ⟨by decide, by decide⟩

/-- A representative well-behaved document, parameterized by its identity
tokens: one model with `@id @default(cuid())`, a model-level `@@map`, one
enum, and a generator whose `binaryTargets` is nonempty. -/
def repDoc (mid fid1 fid2 eid : String) : Schema :=
  { models :=
      [{ id := mid, name := "User",
         fields :=
           [{ id := fid1, name := "id", type := "String", isRequired := true,
              isList := false,
              attributes :=
                [{ name := "id", arguments := [] },
                 { name := "default",
                   arguments :=
                     [{ name := "value", value := "cuid()", isExpression := true }] }] },
            { id := fid2, name := "name", type := "String", isRequired := true,
              isList := false, attributes := [] }],
         attributes :=
           [{ type := "map",
              arguments := [{ name := "value", value := "\"users\"" }] }] }],
    enums := [{ id := eid, name := "Role", values := ["ADMIN", "USER"] }],
    datasource := { provider := "postgresql", url := "env(\"DATABASE_URL\")" },
    generator := { provider := "prisma-client-js", output := none,
                   previewFeatures := [], binaryTargets := ["native"] } }

/-- What parsing `generateSchemaCode (repDoc ...)` produces (fresh identity
tokens, and the `default` argument value truncated to `cuid(`). -/
def repParsed : Schema :=
  { models :=
      [{ id := "model_0", name := "User",
         fields :=
           [{ id := "field-0-0", name := "id", type := "String",
              isRequired := true, isList := false,
              attributes :=
                [{ name := "id", arguments := [] },
                 { name := "default",
                   arguments :=
                     [{ name := "value", value := "cuid(", isExpression := true }] }] },
            { id := "field-0-1", name := "name", type := "String",
              isRequired := true, isList := false, attributes := [] }],
         attributes :=
           [{ type := "map",
              arguments := [{ name := "value", value := "\"users\"" }] }] }],
    enums := [{ id := "enum_0", name := "Role", values := ["ADMIN", "USER"] }],
    datasource := { provider := "postgresql", url := "env(\"DATABASE_URL\")" },
    generator := { provider := "prisma-client-js", output := none,
                   previewFeatures := [], binaryTargets := ["native"] } }

/-- C2, amended: `generate (parse (generate D)) = generate D` does not hold
for every Document (see `c2_counterexample`); it holds for documents whose
generated text parses back to an equivalent document, e.g. for the
representative document `repDoc` under every choice of identity tokens (even
though the parsed document itself differs from `D` beyond identity tokens:
the `default` argument comes back truncated, compensated at regeneration). -/
theorem c2_generate_parse_generate_fixed_point (mid fid1 fid2 eid : String) :
    parseSchema (generateSchemaCode (repDoc mid fid1 fid2 eid)) = some repParsed ∧
    generateSchemaCode repParsed = generateSchemaCode (repDoc mid fid1 fid2 eid) := by
  exact ⟨rfl, rfl⟩

/-- Witness for `c2_generate_parse_generate_fixed_point` at concrete identity
tokens. -/
theorem c2_generate_parse_generate_fixed_point_witness :
    parseSchema (generateSchemaCode (repDoc "m" "f1" "f2" "e")) = some repParsed ∧
    generateSchemaCode repParsed = generateSchemaCode (repDoc "m" "f1" "f2" "e") :=
  c2_generate_parse_generate_fixed_point "m" "f1" "f2" "e"

/-! ## Claim C8: totality and graceful degradation of `parseSchema` -/

/-- An input whose model body contains a line (`!!!`) that matches no
field shape: the line is dropped and the rest of the model still parses. -/
def c8text : String := "model User \x7b\n  !!!\n  id String\n\x7d"

def c8Parsed : Schema :=
  { models :=
      [{ id := "model_0", name := "User",
         fields :=
           [{ id := "field-0-0", name := "id", type := "String",
              isRequired := true, isList := false, attributes := [] }],
         attributes := [] }],
    enums := [], datasource := defaultDatasource, generator := defaultGenerator }

/-- C8: `parseSchema` returns a Document for every input — the failure value
is reserved for an internal fault, and no operation in the body can fault, so
no fault ever crosses the function boundary — and pieces that fail to match
the expected shapes are dropped silently while the rest of the Document is
still produced (here the `!!!` line inside the model body). -/
theorem c8_total_and_degrading :
    (∀ s : String, (parseSchema s).isSome = true) ∧
    parseSchema c8text = some c8Parsed := by
  exact ⟨fun s => rfl, by decide⟩

/-! ## Claim C9: generation is independent of identity tokens -/

theorem sanitizeField_idem (f : Field) :
    sanitizeField (sanitizeField f) = sanitizeField f := rfl

theorem sanitizeModel_idem (m : Model) :
    sanitizeModel (sanitizeModel m) = sanitizeModel m := by
  simp [sanitizeModel, sanitizeField, List.map_map, Function.comp]

theorem sanitizeEnum_idem (e : Enum) :
    sanitizeEnum (sanitizeEnum e) = sanitizeEnum e := rfl

theorem sanitizeSchema_idem (s : Schema) :
    sanitizeSchema (sanitizeSchema s) = sanitizeSchema s := by
  simp [sanitizeSchema, List.map_map, Function.comp, sanitizeModel_idem,
    sanitizeEnum_idem]

/-- C9: `generateSchemaCode` factors through the identity-erased document
(the source's `sanitizedSchema`), so any two Documents that agree except for
the identity tokens of their Models, Fields and Enums generate identical
text, and the output is a function of the token-free data only — no identity
token is ever emitted. -/
theorem c9_generation_ignores_ids :
    (∀ s : Schema, generateSchemaCode s = generateSchemaCode (sanitizeSchema s)) ∧
    (∀ s t : Schema, sanitizeSchema s = sanitizeSchema t →
      generateSchemaCode s = generateSchemaCode t) := by
  constructor
  · intro s
    show generateSchemaCodeCore _ = generateSchemaCodeCore _
    rw [sanitizeSchema_idem]
  · intro s t h
    show generateSchemaCodeCore _ = generateSchemaCodeCore _
    rw [h]

/-- Witness for `c9_generation_ignores_ids`: two concrete documents differing
only in identity tokens generate the same text. -/
theorem c9_generation_ignores_ids_witness :
    generateSchemaCode
        { models := [{ id := "a1", name := "M",
                       fields := [{ id := "a2", name := "x", type := "Int",
                                    isRequired := true, isList := false,
                                    attributes := [] }],
                       attributes := [] }],
          enums := [{ id := "a3", name := "E", values := ["V"] }],
          datasource := defaultDatasource, generator := defaultGenerator } =
      generateSchemaCode
        { models := [{ id := "b1", name := "M",
                       fields := [{ id := "b2", name := "x", type := "Int",
                                    isRequired := true, isList := false,
                                    attributes := [] }],
                       attributes := [] }],
          enums := [{ id := "b3", name := "E", values := ["V"] }],
          datasource := defaultDatasource, generator := defaultGenerator } :=
  c9_generation_ignores_ids.2 _ _ (by decide)

/-! ## Claim C7: fixed section order with empty sections omitted -/

theorem str_append_ne_empty_left (a b : String) (ha : ¬ (a = "")) : ¬ (a ++ b = "") := by
  intro h
  have h2 := congrArg String.length h
  simp [String.length_append] at h2
  exact ha (by cases a with | mk d => cases d with | nil => rfl | cons c cs => simp at h2)

theorem fieldLineCode_sanitize (f : Field) :
    fieldLineCode (sanitizeField f) = fieldLineCode f := rfl

theorem generateModelCode_sanitize (m : Model) :
    generateModelCode (sanitizeModel m) = generateModelCode m := by
  have hc : fieldLineCode ∘ sanitizeField = fieldLineCode := funext fieldLineCode_sanitize
  simp [generateModelCode, sanitizeModel, List.map_map, hc]

theorem generateModelCode_ne_empty (m : Model) : ¬ (generateModelCode m = "") := by
  intro h
  simp only [generateModelCode] at h
  exact str_append_ne_empty_left _ _
    (str_append_ne_empty_left _ _
      (str_append_ne_empty_left _ _
        (str_append_ne_empty_left _ _ (by decide)))) h

theorem generateEnumCode_ne_empty (e : Enum) : ¬ (generateEnumCode e = "") := by
  intro h
  simp only [generateEnumCode] at h
  exact str_append_ne_empty_left _ _
    (str_append_ne_empty_left _ _
      (str_append_ne_empty_left _ _
        (str_append_ne_empty_left _ _ (by decide)))) h

theorem joinSep_models_ne_empty (m : Model) (ms : List Model) :
    ¬ (joinSep "\n\n" (generateModelCode m :: ms.map generateModelCode) = "") := by
  cases ms with
  | nil => simpa [joinSep] using generateModelCode_ne_empty m
  | cons y ys =>
    simp only [List.map, joinSep]
    exact str_append_ne_empty_left _ _
      (str_append_ne_empty_left _ _ (generateModelCode_ne_empty m))

theorem joinSep_enums_ne_empty (e : Enum) (es : List Enum) :
    ¬ (joinSep "\n\n" (generateEnumCode e :: es.map generateEnumCode) = "") := by
  cases es with
  | nil => simpa [joinSep] using generateEnumCode_ne_empty e
  | cons y ys =>
    simp only [List.map, joinSep]
    exact str_append_ne_empty_left _ _
      (str_append_ne_empty_left _ _ (generateEnumCode_ne_empty e))

theorem datasourceCode_ne_empty (d : Datasource) : ¬ (datasourceCode d = "") := by
  intro h
  simp only [datasourceCode] at h
  exact str_append_ne_empty_left _ _
    (str_append_ne_empty_left _ _
      (str_append_ne_empty_left _ _
        (str_append_ne_empty_left _ _ (by decide)))) h
theorem generatorCode_ne_empty (g : Generator) : ¬ (generatorCode g = "") := by
  intro h
  simp only [generatorCode] at h
  exact str_append_ne_empty_left _ _
    (str_append_ne_empty_left _ _
      (str_append_ne_empty_left _ _
        (str_append_ne_empty_left _ _
          (str_append_ne_empty_left _ _
            (str_append_ne_empty_left _ _ (by decide)))))) h

/-- Section-structure of `generateSchemaCode` (shared helper). -/
theorem generateSchemaCode_sections (s : Schema) :
    generateSchemaCode s =
      datasourceCode s.datasource ++ "\n\n" ++ generatorCode s.generator ++
        (if s.models = [] then ""
         else "\n\n" ++ joinSep "\n\n" (s.models.map generateModelCode)) ++
        (if s.enums = [] then ""
         else "\n\n" ++ joinSep "\n\n" (s.enums.map generateEnumCode)) := by
  show generateSchemaCodeCore _ = _
  have hmm : fieldLineCode ∘ sanitizeField = fieldLineCode := funext fieldLineCode_sanitize
  have hgm : generateModelCode ∘ sanitizeModel = generateModelCode :=
    funext generateModelCode_sanitize
  have hge : generateEnumCode ∘ sanitizeEnum = generateEnumCode := funext (fun e => rfl)
  simp only [generateSchemaCodeCore, sanitizeSchema, List.map_map, hgm, hge]
  rcases hm : s.models with _ | ⟨m, ms⟩ <;> rcases he : s.enums with _ | ⟨e, es⟩ <;>
    simp [List.filter_cons, joinSep, String.append_empty, String.append_assoc,
      datasourceCode_ne_empty, generatorCode_ne_empty,
      joinSep_models_ne_empty, joinSep_enums_ne_empty]

/-- C7: for every Document the generated text is the datasource block, a
blank line, the generator block, then (only when there are Models) a blank
line and the Models in Document order joined by blank lines, then (only when
there are Enums) a blank line and the Enums in Document order joined by blank
lines; empty Model/Enum sections are omitted entirely rather than emitted as
empty blocks. -/
theorem c7_fixed_section_order (s : Schema) :
    generateSchemaCode s =
      datasourceCode s.datasource ++ "\n\n" ++ generatorCode s.generator ++
        (if s.models = [] then ""
         else "\n\n" ++ joinSep "\n\n" (s.models.map generateModelCode)) ++
        (if s.enums = [] then ""
         else "\n\n" ++ joinSep "\n\n" (s.enums.map generateEnumCode)) :=
  generateSchemaCode_sections s

/-! ## Claims C4 and C5: the per-chunk behaviour of `processArg` -/

theorem dropWhile_eq_self_of_head (p : Char → Bool) (l : List Char)
    (h : ∀ c, l.head? = some c → p c = false) : l.dropWhile p = l := by
  cases l with
  | nil => rfl
  | cons c cs => exact List.dropWhile_cons_of_neg (by simp [h c rfl])

theorem trimChars_of_wrapped (l : List Char) (h : isWrappedChars l = true) :
    trimChars l = l := by
  have hh : ∀ c, l.head? = some c → isSpaceChar c = false := by
    intro c hc
    simp [isWrappedChars, startsWithChar, endsWithChar, hc] at h
    rcases h with ⟨h1, _⟩ | ⟨h1, _⟩ <;> simp [h1, isSpaceChar]
  have hl : ∀ c, l.getLast? = some c → isSpaceChar c = false := by
    intro c hc
    simp [isWrappedChars, startsWithChar, endsWithChar, hc] at h
    rcases h with ⟨_, h2⟩ | ⟨_, h2⟩ <;> simp [h2, isSpaceChar]
  unfold trimChars
  rw [dropWhile_eq_self_of_head _ _ hh,
    dropWhile_eq_self_of_head _ _ (fun c hc => hl c (by rwa [← List.head?_reverse])),
    List.reverse_reverse]

theorem processArg_false_imp_wrapped (chunk : List Char)
    (h : (processArg chunk).isExpression = false) :
    isWrappedChars (processArg chunk).value.data = true := by
  unfold processArg at *
  by_cases hc : (chunk.takeWhile (fun c => ¬ (c = ':'))).length = chunk.length
  · simp only [hc, if_pos, reduceIte] at h ⊢
    simp only [decide_not, Bool.not_eq_false'] at h
    have hw : isWrappedChars chunk = true := by simpa using h
    simpa [trimChars_of_wrapped chunk hw] using hw
  · simp only [hc, if_neg, reduceIte] at h ⊢
    simp only [decide_not, Bool.not_eq_false'] at h
    simpa using h
theorem scanArgs_mem (input : List Char) :
    ∀ prev isInString quote curName buffer depth acc
      (a : AttributeArgument),
      a ∈ scanArgs input prev isInString quote curName buffer depth acc →
      a ∈ acc ∨ ∃ chunk, a = processArg chunk := by
  induction input with
  | nil =>
    intro prev isInString quote curName buffer depth acc a h
    simp only [scanArgs] at h
    split at h
    · exact Or.inl h
    · rcases List.mem_append.1 h with h1 | h1
      · exact Or.inl h1
      · exact Or.inr ⟨buffer, by simpa using h1⟩
  | cons c rest ih =>
    intro prev isInString quote curName buffer depth acc a h
    simp only [scanArgs] at h
    split_ifs at h <;>
      (rcases ih _ _ _ _ _ _ _ _ h with h1 | h1
       · first
         | exact Or.inl h1
         | (rcases List.mem_append.1 h1 with h2 | h2
            · exact Or.inl h2
            · exact Or.inr ⟨buffer, by simpa using h2⟩)
       · exact Or.inr h1)

/-- C4, counterexample: the chunk ` "x"` (quoted value with leading
whitespace) is stored as a positional argument whose trimmed value `"x"` is
fully wrapped in double quotes, yet `isExpression` is `true` — the claimed
iff fails, because the positional classifier tests the raw, untrimmed chunk. -/
theorem c4_counterexample :
    parseAttributeArguments " \"x\"" =
      [{ name := "value", value := "\"x\"", isExpression := true }] ∧
    isWrappedChars ("\"x\"".data) = true := by
  exact ⟨by decide, by decide⟩

/-- C4, amended: for every argument produced by the scanner, `isExpression`
is false only when the stored (trimmed) value is fully wrapped in matching
double or single quotes.  The converse holds for named arguments (the
classifier input is exactly the stored value) but not for positional ones,
whose classifier sees the raw chunk before trimming (see
`c4_counterexample`). -/
theorem c4_literal_values_are_quote_wrapped
    (s : String) (a : AttributeArgument) (ha : a ∈ parseAttributeArguments s)
    (hf : a.isExpression = false) : isWrappedChars a.value.data = true := by
  unfold parseAttributeArguments parseAttributeArgumentsL at ha
  split at ha
  · simp at ha
  · rcases scanArgs_mem _ _ _ _ _ _ _ _ _ ha with h1 | ⟨chunk, rfl⟩
    · simp at h1
    · exact processArg_false_imp_wrapped chunk hf

/-- Witness for `c4_literal_values_are_quote_wrapped` at a concrete input. -/
theorem c4_literal_values_are_quote_wrapped_witness :
    isWrappedChars (("\"a,b\"" : String).data) = true :=
  c4_literal_values_are_quote_wrapped "a: 1, b: [x, y], c: \"a,b\""
    { name := "c", value := "\"a,b\"", isExpression := false }
    (by decide) (by decide)

theorem takeWhile_ne_colon_eq_self (chunk : List Char) (h : ':' ∉ chunk) :
    chunk.takeWhile (fun c => ¬ (c = ':')) = chunk := by
  induction chunk with
  | nil => rfl
  | cons c cs ih =>
    simp only [List.mem_cons, not_or] at h
    rw [List.takeWhile_cons_of_pos (by simpa using Ne.symm h.1), ih h.2]

theorem takeWhile_ne_colon_eq_take (chunk : List Char) (i : Nat)
    (hi : chunk[i]? = some ':') (hb : ':' ∉ chunk.take i) :
    chunk.takeWhile (fun c => ¬ (c = ':')) = chunk.take i := by
  induction chunk generalizing i with
  | nil => simp at hi
  | cons c cs ih =>
    cases i with
    | zero =>
      simp only [List.getElem?_cons_zero, Option.some_inj] at hi
      rw [List.takeWhile_cons_of_neg (by simp [hi]), List.take_zero]
    | succ j =>
      simp only [List.getElem?_cons_succ] at hi
      simp only [List.take_succ_cons, List.mem_cons, not_or] at hb
      rw [List.take_succ_cons,
        List.takeWhile_cons_of_pos (by simpa using Ne.symm hb.1), ih j hi hb.2]

/-- C5, counterexample: in the chunk `"a:b"` the only colon sits inside the
quoted string, yet `processArg` splits there (plain `indexOf`), producing a
named argument with name `"a` instead of a positional argument named
`value`. -/
theorem c5_counterexample :
    parseAttributeArguments "\"a:b\"" =
      [{ name := "\"a", value := "b\"", isExpression := true }] ∧
    ("\"a" : String) ≠ "value" := by
  exact ⟨by decide, by decide⟩

/-- C5, amended: every flushed chunk is split at the first colon occurring
anywhere in the chunk — whether or not it is the very first character, a
previous name was captured, or the colon sits inside quotes or brackets
(see `c5_counterexample` for the quoted case) — and a chunk with no colon at
all becomes a positional argument stored with name `"value"`. -/
theorem c5_chunk_split_at_first_colon :
    (∀ chunk : List Char, ':' ∉ chunk →
      processArg chunk =
        { name := "value", value := (trimChars chunk).asString,
          isExpression := ¬ (isWrappedChars chunk) }) ∧
    (∀ (chunk : List Char) (i : Nat), chunk[i]? = some ':' →
      ':' ∉ chunk.take i →
      processArg chunk =
        { name := (trimChars (chunk.take i)).asString,
          value := (trimChars (chunk.drop (i + 1))).asString,
          isExpression := ¬ (isWrappedChars (trimChars (chunk.drop (i + 1)))) }) := by
  constructor
  · intro chunk h
    unfold processArg
    rw [takeWhile_ne_colon_eq_self chunk h]
    simp
  · intro chunk i hi hb
    have hlt : i < chunk.length := by
      rcases List.getElem?_eq_some.1 hi with ⟨hl, _⟩
      exact hl
    unfold processArg
    rw [takeWhile_ne_colon_eq_take chunk i hi hb]
    simp [List.length_take, Nat.min_eq_left hlt.le, Nat.ne_of_lt hlt]

/-- Witness for `c5_chunk_split_at_first_colon` at concrete chunks. -/
theorem c5_chunk_split_at_first_colon_witness :
    processArg ((" b: [x, y]" : String).data) =
      { name := "b", value := "[x, y]", isExpression := true } ∧
    processArg (("cuid(" : String).data) =
      { name := "value", value := "cuid(", isExpression := true } := by
  constructor
  · rw [c5_chunk_split_at_first_colon.2 ((" b: [x, y]" : String).data) 2
      (by decide) (by decide)]
    decide
  · rw [c5_chunk_split_at_first_colon.1 (("cuid(" : String).data) (by decide)]
    decide

/-! ## Claim C6: datasource/generator defaults and last-occurrence accumulation -/

def datasourceBodies (s : String) : List (List Char) :=
  (findBlocks ("datasource".data) (stripComments s.data)).map (fun p => p.2)

def generatorBodies (s : String) : List (List Char) :=
  (findBlocks ("generator".data) (stripComments s.data)).map (fun p => p.2)

theorem getLast?_cons_getD (x d : α) (ys : List α) :
    (x :: ys).getLast?.getD d = ys.getLast?.getD x := by
  induction ys generalizing x with
  | nil => rfl
  | cons y ys ih =>
    rw [List.getLast?_cons_cons]
    cases h : (y :: ys).getLast? with
    | none => exact absurd h (by simp)
    | some z => simp [← ih y, List.getLast?_cons_cons, h]

theorem lastConfig_eq (f : List Char → Option α) (d : α) (l : List (List Char)) :
    lastConfig f d l = (l.filterMap f).getLast?.getD d := by
  induction l generalizing d with
  | nil => rfl
  | cons b bs ih =>
    show lastConfig f ((f b).getD d) bs = _
    cases hf : f b with
    | none => simp [List.filterMap_cons, hf, ih]
    | some x => simp [List.filterMap_cons, hf, ih, getLast?_cons_getD]

def c6text : String :=
  "datasource a \x7b\n  provider = \"p1\"\n  url = u1\n\x7d\ndatasource b \x7b\n  provider = \"p2\"\n\x7d"

def c6Parsed : Schema :=
  { models := [], enums := [], datasource := { provider := "p1", url := "u1" },
    generator := defaultGenerator }

/-- C6, counterexample: `c6text` contains two datasource blocks; the last one
(name `b`) declares provider `p2` but no `url`, so `parseSchema` keeps the
first block's values — the last occurrence in source order does not determine
the resulting datasource. -/
theorem c6_counterexample :
    parseSchema c6text = some c6Parsed ∧
    c6Parsed.datasource = { provider := "p1", url := "u1" } ∧
    (datasourceBodies c6text).length = 2 ∧
    (datasourceBodies c6text).getLast? = some ("\n  provider = \"p2\"\n".data) := by
  exact ⟨by decide, by decide, by decide, by decide⟩

/-- C6, amended: when no datasource (resp. generator) block is present the
Document keeps the built-in defaults; otherwise the datasource (resp.
generator) field is determined by the last occurrence whose body successfully
yields the required keys (provider and url for a datasource, provider for a
generator) — a trailing malformed block does not override an earlier
well-formed one (see `c6_counterexample`). -/
theorem c6_last_wellformed_config_wins (s : String) (sch : Schema)
    (h : parseSchema s = some sch) :
    sch.datasource =
      ((datasourceBodies s).filterMap parseDatasourceBody).getLast?.getD
        defaultDatasource ∧
    sch.generator =
      ((generatorBodies s).filterMap parseGeneratorBody).getLast?.getD
        defaultGenerator ∧
    (datasourceBodies s = [] → sch.datasource = defaultDatasource) ∧
    (generatorBodies s = [] → sch.generator = defaultGenerator) := by
  have hsch := Option.some.inj h
  subst hsch
  refine ⟨?_, ?_, ?_, ?_⟩
  · exact lastConfig_eq _ _ _
  · exact lastConfig_eq _ _ _
  · intro he
    exact (lastConfig_eq parseDatasourceBody defaultDatasource
      (datasourceBodies s)).trans (by rw [he]; rfl)
  · intro he
    exact (lastConfig_eq parseGeneratorBody defaultGenerator
      (generatorBodies s)).trans (by rw [he]; rfl)

/-- Witness for `c6_last_wellformed_config_wins` at the concrete input
`c6text`. -/
theorem c6_last_wellformed_config_wins_witness :
    c6Parsed.datasource =
      ((datasourceBodies c6text).filterMap parseDatasourceBody).getLast?.getD
        defaultDatasource :=
  (c6_last_wellformed_config_wins c6text c6Parsed (by decide)).1

/-! ## Claim C10: fixed emitted block names, parser-discarded block names -/

theorem head?_some_eq_cons {l : List Char} {a : Char} (h : l.head? = some a) :
    l = a :: l.tail := by
  cases l with
  | nil => simp at h
  | cons c cs => simpa using congrArg (fun o => (Option.getD o 'x') :: cs) h

theorem dropLiteral_eq_some (kw : List Char) :
    ∀ s t : List Char, dropLiteral kw s = some t → s = kw ++ t := by
  induction kw with
  | nil => intro s t h; simpa [dropLiteral] using Option.some.inj h
  | cons k ks ih =>
    intro s t h
    cases s with
    | nil => simp [dropLiteral] at h
    | cons c cs =>
      simp only [dropLiteral] at h
      split_ifs at h with hk
      subst hk
      simpa using ih cs t h

theorem dropLiteral_self_append (kw rest : List Char) :
    dropLiteral kw (kw ++ rest) = some rest := by
  induction kw with
  | nil => rfl
  | cons k ks ih => simp [dropLiteral, ih]

theorem matchBlockAt_decomp (kw s w b rest : List Char)
    (h : matchBlockAt kw s = some (w, b, rest)) :
    ∃ sp sp2, s = kw ++ (sp ++ (w ++ (sp2 ++ ('\x7b' :: (b ++ ('\x7d' :: rest)))))) ∧
      sp ≠ [] ∧ (∀ c ∈ sp, isSpaceChar c = true) ∧ w ≠ [] ∧
      (∀ c ∈ w, isWordChar c = true) ∧ (∀ c ∈ sp2, isSpaceChar c = true) ∧
      '\x7d' ∉ b := by
  unfold matchBlockAt at h
  rcases hdl : dropLiteral kw s with _ | s1 <;> rw [hdl] at h
  · simp at h
  · simp only [] at h
    split_ifs at h with h1 h2 h3 h4
    simp only [Option.some.injEq, Prod.mk.injEq] at h
    obtain ⟨hw, hb, hr⟩ := h
    set dwS := s1.dropWhile isSpaceChar with hdwS
    set dwW := dwS.dropWhile isWordChar with hdwW
    set s4 := dwW.dropWhile isSpaceChar with hs4
    set s5 := s4.tail with hs5
    set s6 := s5.dropWhile (fun c => c != '\x7d') with hs6
    refine ⟨s1.takeWhile isSpaceChar, dwW.takeWhile isSpaceChar, ?_,
      h1, fun c hc => List.mem_takeWhile_imp hc, ?_, ?_,
      fun c hc => List.mem_takeWhile_imp hc, ?_⟩
    · have e1 : s = kw ++ s1 := dropLiteral_eq_some kw s s1 hdl
      have e2 : s1 = s1.takeWhile isSpaceChar ++ dwS :=
        (List.takeWhile_append_dropWhile _ _).symm
      have e3 : dwS = dwS.takeWhile isWordChar ++ dwW :=
        (List.takeWhile_append_dropWhile _ _).symm
      have e4 : dwW = dwW.takeWhile isSpaceChar ++ s4 :=
        (List.takeWhile_append_dropWhile _ _).symm
      have e5 : s4 = '\x7b' :: s5 := head?_some_eq_cons h3
      have e6 : s5 = s5.takeWhile (fun c => c != '\x7d') ++ s6 :=
        (List.takeWhile_append_dropWhile _ _).symm
      have e7 : s6 = '\x7d' :: s6.tail := head?_some_eq_cons h4
      rw [e1, ← hw, ← hb, ← hr]
      conv_lhs => rw [e2, e3, e4, e5, e6, e7]
    · rw [← hw]; exact h2
    · rw [← hw]; exact fun c hc => List.mem_takeWhile_imp hc
    · rw [← hb]
      intro hmem
      have := List.mem_takeWhile_imp hmem
      simp at this
theorem append_singleton_inj {x : Char} (u1 : List Char) :
    ∀ (u2 v1 v2 : List Char), u1 ++ x :: v1 = u2 ++ x :: v2 →
      x ∉ u1 → x ∉ u2 → u1 = u2 ∧ v1 = v2 := by
  induction u1 with
  | nil =>
    intro u2 v1 v2 h h1 h2
    cases u2 with
    | nil => simpa using h
    | cons d ds =>
      simp only [List.nil_append, List.cons_append, List.cons.injEq] at h
      exact absurd (h.1 ▸ List.mem_cons_self d ds) h2
  | cons c cs ih =>
    intro u2 v1 v2 h h1 h2
    cases u2 with
    | nil =>
      simp only [List.nil_append, List.cons_append, List.cons.injEq] at h
      exact absurd (h.1 ▸ List.mem_cons_self c cs) (h.1 ▸ h1)
    | cons d ds =>
      simp only [List.cons_append, List.cons.injEq] at h
      obtain ⟨rfl, h⟩ := h
      have := ih ds v1 v2 h (fun hm => h1 (List.mem_cons_of_mem _ hm))
        (fun hm => h2 (List.mem_cons_of_mem _ hm))
      exact ⟨by rw [this.1], this.2⟩

theorem word_block_split (u1 : List Char) :
    ∀ (u2 t1 t2 : List Char) (c1 c2 : Char),
      u1 ++ c1 :: t1 = u2 ++ c2 :: t2 →
      (∀ c ∈ u1, isWordChar c = true) → isWordChar c1 = false →
      (∀ c ∈ u2, isWordChar c = true) → isWordChar c2 = false →
      u1 = u2 ∧ c1 = c2 ∧ t1 = t2 := by
  induction u1 with
  | nil =>
    intro u2 t1 t2 c1 c2 h hu1 hc1 hu2 hc2
    cases u2 with
    | nil => simpa using h
    | cons d ds =>
      simp only [List.nil_append, List.cons_append, List.cons.injEq] at h
      rw [h.1] at hc1
      rw [hu2 d (List.mem_cons_self d ds)] at hc1
      simp at hc1
  | cons c cs ih =>
    intro u2 t1 t2 c1 c2 h hu1 hc1 hu2 hc2
    cases u2 with
    | nil =>
      simp only [List.nil_append, List.cons_append, List.cons.injEq] at h
      rw [← h.1] at hc2
      rw [hu1 c (List.mem_cons_self c cs)] at hc2
      simp at hc2
    | cons d ds =>
      simp only [List.cons_append, List.cons.injEq] at h
      obtain ⟨rfl, h⟩ := h
      have := ih ds t1 t2 c1 c2 h (fun x hx => hu1 x (List.mem_cons_of_mem _ hx))
        hc1 (fun x hx => hu2 x (List.mem_cons_of_mem _ hx)) hc2
      exact ⟨by rw [this.1], this.2⟩

theorem not_word_of_space {c : Char} (h : isSpaceChar c = true) :
    isWordChar c = false := by
  simp only [isSpaceChar, Bool.or_eq_true, decide_eq_true_eq] at h
  rcases h with ((((h | h) | h) | h) | h) | h <;> subst h <;> decide

theorem word_char_ne {x c : Char} (hx : isWordChar x = false)
    (hc : isWordChar c = true) : x ≠ c := fun h => by rw [h, hc] at hx; simp at hx

theorem not_mem_of_all_word (x : Char) (hx : isWordChar x = false)
    {n : List Char} (hn : ∀ c ∈ n, isWordChar c = true) : x ∉ n :=
  fun hm => absurd (hn x hm) (by simp [hx])

/-- The single-block text `kind name \x7b body \x7d` used to analyse block
scanning: a keyword, a space, a name, a space, and a braced body. -/
def blockText (prew n body : List Char) : List Char :=
  prew ++ ' ' :: n ++ ' ' :: '\x7b' :: body ++ ['\x7d']

theorem brace_not_mem_config (prew n : List Char)
    (hprew : ∀ c ∈ prew, isWordChar c = true)
    (hn : ∀ c ∈ n, isWordChar c = true) :
    '\x7b' ∉ (prew ++ (' ' :: (n ++ [' ']))) := by
  intro hm
  simp only [List.mem_append, List.mem_cons, List.mem_singleton] at hm
  rcases hm with hm | hm | hm | hm
  · exact not_mem_of_all_word '\x7b' (by decide) hprew hm
  · exact absurd hm (by decide)
  · exact not_mem_of_all_word '\x7b' (by decide) hn hm
  · exact absurd hm (by decide)

theorem brace_not_mem_scan (kw sp w sp2 : List Char)
    (hkw : ∀ c ∈ kw, isWordChar c = true)
    (hsp : ∀ c ∈ sp, isSpaceChar c = true)
    (hw : ∀ c ∈ w, isWordChar c = true)
    (hsp2 : ∀ c ∈ sp2, isSpaceChar c = true) :
    '\x7b' ∉ (kw ++ (sp ++ (w ++ sp2))) := by
  intro hm
  simp only [List.mem_append] at hm
  rcases hm with hm | hm | hm | hm
  · exact not_mem_of_all_word '\x7b' (by decide) hkw hm
  · exact absurd (hsp _ hm) (by decide)
  · exact not_mem_of_all_word '\x7b' (by decide) hw hm
  · exact absurd (hsp2 _ hm) (by decide)

/-- Any successful block-regex match inside `blockText prew n body` must be
the intended one: the matched keyword is a tail of `prew` aligned so that the
match starts inside the keyword region (for the keywords in play this forces
`kw = prew` and position 0). -/
theorem matchBlockAt_blockText (prew n body kw : List Char)
    (hprew : ∀ c ∈ prew, isWordChar c = true)
    (hkw1 : kw ≠ []) (hkw2 : ∀ c ∈ kw, isWordChar c = true)
    (hn1 : n ≠ []) (hn2 : ∀ c ∈ n, isWordChar c = true)
    (hbody1 : '\x7b' ∉ body)
    (j : Nat) (w b rest : List Char)
    (h : matchBlockAt kw ((blockText prew n body).drop j) = some (w, b, rest)) :
    kw = prew.drop j ∧ j ≤ prew.length := by
  obtain ⟨sp, sp2, heq, hsp1, hspAll, hw1, hwAll, hsp2All, hbne⟩ :=
    matchBlockAt_decomp kw _ w b rest h
  have hT : blockText prew n body =
      (prew ++ (' ' :: (n ++ [' ']))) ++ ('\x7b' :: (body ++ ['\x7d'])) := by
    simp [blockText, List.append_assoc]
  set P := prew ++ (' ' :: (n ++ [' '])) with hP
  set Q := body ++ ['\x7d'] with hQ
  have hPlen : P.length = prew.length + n.length + 2 := by
    rw [hP]
    simp [List.length_append]
    omega
  rcases le_or_lt j P.length with hj | hj
  · -- position inside the pre-brace prefix
    have hdrop : (blockText prew n body).drop j = P.drop j ++ ('\x7b' :: Q) := by
      rw [hT]
      exact List.drop_append_of_le_length hj
    have heq2 : P.drop j ++ '\x7b' :: Q =
        (kw ++ (sp ++ (w ++ sp2))) ++ '\x7b' :: (b ++ ('\x7d' :: rest)) := by
      rw [← hdrop, heq]
      simp [List.append_assoc]
    have hsplit := append_singleton_inj (P.drop j) (kw ++ (sp ++ (w ++ sp2)))
      Q (b ++ ('\x7d' :: rest)) heq2
      (fun hm => brace_not_mem_config prew n hprew hn2 (List.mem_of_mem_drop hm))
      (brace_not_mem_scan kw sp w sp2 hkw2 hspAll hwAll hsp2All)
    obtain ⟨c1, sp', rfl⟩ := List.exists_cons_of_ne_nil hsp1
    have hc1 : isWordChar c1 = false :=
      not_word_of_space (hspAll c1 (List.mem_cons_self c1 sp'))
    rcases le_or_lt j prew.length with hj2 | hj2
    · -- inside the keyword region: forced to be keyword-aligned
      have hPd : P.drop j = prew.drop j ++ (' ' :: (n ++ [' '])) := by
        rw [hP]
        exact List.drop_append_of_le_length hj2
      have hfin : prew.drop j ++ ' ' :: (n ++ [' ']) =
          kw ++ c1 :: (sp' ++ (w ++ sp2)) := by
        rw [← hPd, hsplit.1]
        simp [List.append_assoc]
      have hres := word_block_split (prew.drop j) kw (n ++ [' '])
        (sp' ++ (w ++ sp2)) ' ' c1 hfin
        (fun c hc => hprew c (List.mem_of_mem_drop hc)) (by decide) hkw2 hc1
      exact ⟨hres.1.symm, hj2⟩
    · -- inside the name region: impossible
      exfalso
      have hPd : P.drop j = (' ' :: (n ++ [' '])).drop (j - prew.length) := by
        rw [hP]
        conv_lhs => rw [show j = prew.length + (j - prew.length) from by omega]
        rw [List.drop_append]
      have hPd2 : P.drop j = (n ++ [' ']).drop (j - prew.length - 1) := by
        rw [hPd]
        conv_lhs =>
          rw [show j - prew.length = (j - prew.length - 1) + 1 from by omega]
        rw [List.drop_succ_cons]
      rcases le_or_lt (j - prew.length - 1) n.length with hi | hi
      · have hPd3 : P.drop j = n.drop (j - prew.length - 1) ++ [' '] := by
          rw [hPd2]
          exact List.drop_append_of_le_length hi
        have hfin : n.drop (j - prew.length - 1) ++ ' ' :: ([] : List Char) =
            kw ++ c1 :: (sp' ++ (w ++ sp2)) := by
          rw [show n.drop (j - prew.length - 1) ++ ' ' :: ([] : List Char) =
              n.drop (j - prew.length - 1) ++ [' '] from rfl, ← hPd3, hsplit.1]
          simp [List.append_assoc]
        have hres := word_block_split (n.drop (j - prew.length - 1)) kw []
          (sp' ++ (w ++ sp2)) ' ' c1 hfin
          (fun c hc => hn2 c (List.mem_of_mem_drop hc)) (by decide) hkw2 hc1
        have hnil : sp' ++ (w ++ sp2) = [] := hres.2.2.symm
        rcases List.append_eq_nil.1 hnil with ⟨_, hws⟩
        rcases List.append_eq_nil.1 hws with ⟨hwnil, _⟩
        exact hw1 hwnil
      · have hPd3 : P.drop j = [] := by
          rw [hPd2]
          apply List.drop_eq_nil_of_le
          simp only [List.length_append, List.length_singleton]
          omega
        rw [hPd3] at hsplit
        have hcontra := hsplit.1.symm
        rw [List.append_eq_nil] at hcontra
        exact hkw1 hcontra.1
  · -- position at or beyond the opening brace: no further brace exists
    exfalso
    have hdrop : (blockText prew n body).drop j =
        ('\x7b' :: Q).drop (j - P.length) := by
      rw [hT]
      conv_lhs => rw [show j = P.length + (j - P.length) from by omega]
      rw [List.drop_append]
    have hbrace : '\x7b' ∈ (blockText prew n body).drop j := by
      rw [heq]
      simp
    rw [hdrop] at hbrace
    have hQmem : '\x7b' ∈ Q := by
      rcases Nat.exists_eq_add_of_lt hj with ⟨k, hkk⟩
      rw [show j - P.length = k + 1 from by omega, List.drop_succ_cons] at hbrace
      exact List.mem_of_mem_drop hbrace
    rw [hQ] at hQmem
    rcases List.mem_append.1 hQmem with hm | hm
    · exact hbody1 hm
    · simp at hm

theorem not_space_of_word {c : Char} (h : isWordChar c = true) :
    isSpaceChar c = false := by
  cases hs : isSpaceChar c
  · rfl
  · rw [not_word_of_space hs] at h
    simp at h

theorem matchBlockAt_blockText_self (prew n body : List Char)
    (hn1 : n ≠ []) (hn2 : ∀ c ∈ n, isWordChar c = true)
    (hbody : '\x7d' ∉ body) :
    matchBlockAt prew (blockText prew n body) = some (n, body, []) := by
  obtain ⟨n0, n', rfl⟩ := List.exists_cons_of_ne_nil hn1
  have hn0w : isWordChar n0 = true := hn2 n0 (List.mem_cons_self _ _)
  have hn0s : isSpaceChar n0 = false := not_space_of_word hn0w
  have hB : blockText prew (n0 :: n') body =
      prew ++ (' ' :: (n0 :: (n' ++ (' ' :: ('\x7b' :: (body ++ ['\x7d'])))))) := by
    simp [blockText, List.append_assoc]
  rw [hB]
  have hwords : ∀ c ∈ n', isWordChar c = true :=
    fun c hc => hn2 c (List.mem_cons_of_mem _ hc)
  have e1 : List.dropWhile isSpaceChar
      (' ' :: n0 :: (n' ++ ' ' :: '\x7b' :: (body ++ ['\x7d']))) =
      n0 :: (n' ++ ' ' :: '\x7b' :: (body ++ ['\x7d'])) := by
    rw [List.dropWhile_cons_of_pos (by decide),
      List.dropWhile_cons_of_neg (by simp [hn0s])]
  have htw1 : List.takeWhile isSpaceChar
      (' ' :: n0 :: (n' ++ ' ' :: '\x7b' :: (body ++ ['\x7d']))) =
      ' ' :: List.takeWhile isSpaceChar
        (n0 :: (n' ++ ' ' :: '\x7b' :: (body ++ ['\x7d']))) :=
    List.takeWhile_cons_of_pos (by decide)
  have e3 : List.takeWhile isWordChar
      (n0 :: (n' ++ ' ' :: '\x7b' :: (body ++ ['\x7d']))) = n0 :: n' := by
    rw [List.takeWhile_cons_of_pos hn0w, List.takeWhile_append_of_pos hwords,
      List.takeWhile_cons_of_neg (by decide), List.append_nil]
  have e4 : List.dropWhile isWordChar
      (n0 :: (n' ++ ' ' :: '\x7b' :: (body ++ ['\x7d']))) =
      ' ' :: '\x7b' :: (body ++ ['\x7d']) := by
    rw [List.dropWhile_cons_of_pos hn0w, List.dropWhile_append_of_pos hwords,
      List.dropWhile_cons_of_neg (by decide)]
  have e5 : List.dropWhile isSpaceChar (' ' :: '\x7b' :: (body ++ ['\x7d'])) =
      '\x7b' :: (body ++ ['\x7d']) := by
    rw [List.dropWhile_cons_of_pos (by decide),
      List.dropWhile_cons_of_neg (by decide)]
  have hbodyok : ∀ c ∈ body, (c != '\x7d') = true := by
    intro c hc
    have : c ≠ '\x7d' := fun hcc => hbody (hcc ▸ hc)
    simpa using this
  have e6 : List.takeWhile (fun c => c != '\x7d') (body ++ ['\x7d']) = body := by
    rw [List.takeWhile_append_of_pos hbodyok,
      List.takeWhile_cons_of_neg (by decide), List.append_nil]
  have e7 : List.dropWhile (fun c => c != '\x7d') (body ++ ['\x7d']) = ['\x7d'] := by
    rw [List.dropWhile_append_of_pos hbodyok,
      List.dropWhile_cons_of_neg (by decide)]
  simp only [matchBlockAt, dropLiteral_self_append]
  simp [htw1, e1, e3, e4, e5, e6, e7]
theorem findBlocksAux_nil (kw : List Char) (fuel : Nat) :
    findBlocksAux kw fuel [] = [] := by cases fuel <;> rfl

theorem findBlocksAux_eq_nil (kw : List Char) (fuel : Nat) :
    ∀ t : List Char, (∀ j, matchBlockAt kw (t.drop j) = none) →
      findBlocksAux kw fuel t = [] := by
  induction fuel with
  | zero => intro t _; rfl
  | succ f ih =>
    intro t h
    cases t with
    | nil => rfl
    | cons c rest =>
      have h0 := h 0
      simp only [List.drop_zero] at h0
      simp only [findBlocksAux, h0]
      exact ih rest (fun j => by simpa [List.drop_succ_cons] using h (j + 1))

theorem findBlocks_blockText_self (prew n body : List Char)
    (hprew1 : prew ≠ [])
    (hn1 : n ≠ []) (hn2 : ∀ c ∈ n, isWordChar c = true)
    (hbody2 : '\x7d' ∉ body) :
    findBlocks prew (blockText prew n body) = [(n, body)] := by
  have hm := matchBlockAt_blockText_self prew n body hn1 hn2 hbody2
  obtain ⟨p0, prew', rfl⟩ := List.exists_cons_of_ne_nil hprew1
  have hcons : blockText (p0 :: prew') n body =
      p0 :: (prew' ++ ' ' :: n ++ ' ' :: '\x7b' :: body ++ ['\x7d']) := by
    simp [blockText]
  unfold findBlocks
  rw [hcons] at hm ⊢
  simp only [List.length_cons]
  simp only [findBlocksAux, hm]
  exact congrArg _ (findBlocksAux_nil _ _)

theorem findBlocks_blockText_other (prew n body kw : List Char)
    (hprew : ∀ c ∈ prew, isWordChar c = true)
    (hkw1 : kw ≠ []) (hkw2 : ∀ c ∈ kw, isWordChar c = true)
    (hn1 : n ≠ []) (hn2 : ∀ c ∈ n, isWordChar c = true)
    (hbody1 : '\x7b' ∉ body)
    (hne : ∀ j, j ≤ prew.length → kw ≠ prew.drop j) :
    findBlocks kw (blockText prew n body) = [] := by
  apply findBlocksAux_eq_nil
  intro j
  cases hmb : matchBlockAt kw ((blockText prew n body).drop j) with
  | none => rfl
  | some r =>
    obtain ⟨w, b, rest⟩ := r
    have hu := matchBlockAt_blockText prew n body kw hprew hkw1 hkw2 hn1 hn2
      hbody1 j w b rest hmb
    exact absurd hu.1 (hne j hu.2)

theorem stripCommentsAux_eq_self (l : List Char) :
    '/' ∉ l → ∀ fuel, l.length ≤ fuel → stripCommentsAux fuel l = l := by
  induction l with
  | nil => intro _ fuel _; cases fuel <;> rfl
  | cons c cs ih =>
    intro h fuel hf
    cases fuel with
    | zero => simp at hf
    | succ f =>
      have hc : ¬ (c = '/' ∧ cs.head? = some '/') := by
        rintro ⟨rfl, _⟩
        exact h (List.mem_cons_self _ _)
      simp only [stripCommentsAux, if_neg hc]
      rw [ih (fun hm => h (List.mem_cons_of_mem _ hm)) f
        (Nat.succ_le_succ_iff.1 (by simpa using hf))]

theorem stripComments_eq_self (l : List Char) (h : '/' ∉ l) :
    stripComments l = l :=
  stripCommentsAux_eq_self l h l.length le_rfl
/-- The body of the single-datasource text used for claim C10. -/
def dsOnlyBody : List Char := ("\n  provider = \"p1\"\n  url = u1\n" : String).data

/-- A document text consisting of one datasource block whose name is `n`. -/
def dsOnlyText (n : List Char) : String :=
  (blockText (("datasource" : String).data) n dsOnlyBody).asString

/-- The body of the single-generator text used for claim C10. -/
def genOnlyBody : List Char := ("\n  provider = \"g1\"\n" : String).data

/-- A document text consisting of one generator block whose name is `m`. -/
def genOnlyText (m : List Char) : String :=
  (blockText (("generator" : String).data) m genOnlyBody).asString

theorem slash_not_mem_blockText (prew n body : List Char)
    (hprew : '/' ∉ prew) (hn : ∀ c ∈ n, isWordChar c = true)
    (hbody : '/' ∉ body) : '/' ∉ blockText prew n body := by
  intro hm
  simp only [blockText, List.append_assoc, List.cons_append, List.mem_append,
    List.mem_cons, List.mem_singleton] at hm
  rcases hm with hm | hm | hm | hm | hm | hm | hm | hm
  · exact hprew hm
  · exact absurd hm (by decide)
  · exact not_mem_of_all_word '/' (by decide) hn hm
  · exact absurd hm (by decide)
  · exact absurd hm (by decide)
  · exact hbody hm
  · exact absurd hm (by decide)
  · simp at hm

theorem parseSchema_dsOnlyText (n : List Char) (hn1 : n ≠ [])
    (hn2 : ∀ c ∈ n, isWordChar c = true) :
    parseSchema (dsOnlyText n) =
      some { models := [], enums := [],
             datasource := { provider := "p1", url := "u1" },
             generator := defaultGenerator } := by
  have hsc : stripComments ((dsOnlyText n).data) =
      blockText (("datasource" : String).data) n dsOnlyBody := by
    apply stripComments_eq_self
    exact slash_not_mem_blockText _ n _ (by decide) hn2 (by decide)
  simp only [parseSchema, hsc]
  rw [findBlocks_blockText_self _ n _ (by decide) hn1 hn2 (by decide)]
  rw [findBlocks_blockText_other _ n _ (("model" : String).data) (by decide)
    (by decide) (by decide) hn1 hn2 (by decide)
    (fun j hj => by have hj10 : j ≤ 10 := hj; clear hj; interval_cases j <;> decide)]
  rw [findBlocks_blockText_other _ n _ (("enum" : String).data) (by decide)
    (by decide) (by decide) hn1 hn2 (by decide)
    (fun j hj => by have hj10 : j ≤ 10 := hj; clear hj; interval_cases j <;> decide)]
  rw [findBlocks_blockText_other _ n _ (("generator" : String).data) (by decide)
    (by decide) (by decide) hn1 hn2 (by decide)
    (fun j hj => by have hj10 : j ≤ 10 := hj; clear hj; interval_cases j <;> decide)]
  rfl

theorem parseSchema_genOnlyText (m : List Char) (hm1 : m ≠ [])
    (hm2 : ∀ c ∈ m, isWordChar c = true) :
    parseSchema (genOnlyText m) =
      some { models := [], enums := [], datasource := defaultDatasource,
             generator := { provider := "g1", output := none,
                            previewFeatures := [], binaryTargets := ["native"] } } := by
  have hsc : stripComments ((genOnlyText m).data) =
      blockText (("generator" : String).data) m genOnlyBody := by
    apply stripComments_eq_self
    exact slash_not_mem_blockText _ m _ (by decide) hm2 (by decide)
  simp only [parseSchema, hsc]
  rw [findBlocks_blockText_self _ m _ (by decide) hm1 hm2 (by decide)]
  rw [findBlocks_blockText_other _ m _ (("model" : String).data) (by decide)
    (by decide) (by decide) hm1 hm2 (by decide)
    (fun j hj => by have hj10 : j ≤ 9 := hj; clear hj; interval_cases j <;> decide)]
  rw [findBlocks_blockText_other _ m _ (("enum" : String).data) (by decide)
    (by decide) (by decide) hm1 hm2 (by decide)
    (fun j hj => by have hj10 : j ≤ 9 := hj; clear hj; interval_cases j <;> decide)]
  rw [findBlocks_blockText_other _ m _ (("datasource" : String).data) (by decide)
    (by decide) (by decide) hm1 hm2 (by decide)
    (fun j hj => by have hj10 : j ≤ 9 := hj; clear hj; interval_cases j <;> decide)]
  rfl
/-- The Schema that parsing `dsOnlyText n` yields for every valid name `n`. -/
def dsOnlyParsed : Schema :=
  { models := [], enums := [],
    datasource := { provider := "p1", url := "u1" },
    generator := defaultGenerator }

/-- The Schema that parsing `genOnlyText m` yields for every valid name `m`. -/
def genOnlyParsed : Schema :=
  { models := [], enums := [], datasource := defaultDatasource,
    generator := { provider := "g1", output := none, previewFeatures := [],
                   binaryTargets := ["native"] } }

/-- A two-block document whose datasource is named `mydb` and whose generator
is named `mygen`. -/
def c10RenameText : String :=
  "datasource mydb \x7b\n  provider = \"p1\"\n  url = u1\n\x7d\n\ngenerator mygen \x7b\n  provider = \"g1\"\n\x7d"

def c10RenameParsed : Schema :=
  { models := [], enums := [],
    datasource := { provider := "p1", url := "u1" },
    generator := { provider := "g1", output := none, previewFeatures := [],
                   binaryTargets := ["native"] } }

/-- Regenerating `c10RenameParsed` renames the blocks to `db` and `client`. -/
def c10RegeneratedText : String :=
  "datasource db \x7b\n  provider = \"p1\"\n  url      = u1\n\x7d\n\ngenerator client \x7b\n  provider = \"g1\"\n  binaryTargets = [\"native\"]\n\x7d"

/-- C10: the parser matches but never captures or stores the datasource and
generator block names (parsing a single-datasource or single-generator
document yields the same Schema for every word-shaped block name), the
generator always emits the fixed headers `datasource db \x7b` and
`generator client \x7b`, and consequently round-tripping a document renames
its datasource block to `db` and its generator block to `client`. -/
theorem c10_fixed_block_names :
    (∀ d : Datasource, ∃ t : String,
      datasourceCode d = "datasource db \x7b\n  provider = \"" ++ t) ∧
    (∀ g : Generator, ∃ t : String,
      generatorCode g = "generator client \x7b\n  provider = \"" ++ t) ∧
    (∀ s : Schema, ∃ rest : String,
      generateSchemaCode s =
        datasourceCode s.datasource ++ "\n\n" ++ generatorCode s.generator ++ rest) ∧
    (∀ n : List Char, n ≠ [] → (∀ c ∈ n, isWordChar c = true) →
      parseSchema (dsOnlyText n) = some dsOnlyParsed) ∧
    (∀ m : List Char, m ≠ [] → (∀ c ∈ m, isWordChar c = true) →
      parseSchema (genOnlyText m) = some genOnlyParsed) ∧
    parseSchema c10RenameText = some c10RenameParsed ∧
    generateSchemaCode c10RenameParsed = c10RegeneratedText := by
  refine ⟨?_, ?_, ?_, ?_, ?_, by decide, by decide⟩
  · intro d
    exact ⟨_, by simp only [datasourceCode, String.append_assoc]; rfl⟩
  · intro g
    exact ⟨_, by simp only [generatorCode, String.append_assoc]; rfl⟩
  · intro s
    rw [generateSchemaCode_sections]
    exact ⟨_, by simp only [String.append_assoc]; rfl⟩
  · exact parseSchema_dsOnlyText
  · exact parseSchema_genOnlyText

/-- Witness for `c10_fixed_block_names` at concrete block names. -/
theorem c10_fixed_block_names_witness :
    parseSchema (dsOnlyText (("mydb" : String).data)) = some dsOnlyParsed ∧
    parseSchema (genOnlyText (("mygen" : String).data)) = some genOnlyParsed :=
  ⟨c10_fixed_block_names.2.2.2.1 (("mydb" : String).data) (by decide) (by decide),
   c10_fixed_block_names.2.2.2.2.1 (("mygen" : String).data) (by decide) (by decide)⟩

end Prisma
